import Mathlib

/-!
Shallow embedding of the AI BDR/SDR pipeline's extraction, deduplication and
scoring logic (src/agents of the repository), together with proofs of the
spec's testable properties.

Python strings are modelled as `String` / `List Char` (all character-level
operations are defined here so that they compute), Python numbers as `Int`
(counts) and `ℚ` (scores; Python floats are modelled as exact rationals —
every arithmetic the scorers perform stays within small decimal fractions),
Python dicts as structures, and the external collaborators (web search, LLM,
CRM network calls) as explicit function parameters, as the spec itself
prescribes ("mocked behind an interface").
-/

namespace AiBdr

/-- Python truthiness of a string: nonempty. -/
def truthyS (s : String) : Bool := !s.data.isEmpty

/-- Python `str.strip()`: drop whitespace from both ends. -/
def stripChars (l : List Char) : List Char :=
  ((l.dropWhile Char.isWhitespace).reverse.dropWhile Char.isWhitespace).reverse

/-- Python `needle in hay` substring test on strings. -/
def containsSeq : List Char → List Char → Bool
  | [], needle => needle.isEmpty
  | c :: rest, needle => needle.isPrefixOf (c :: rest) || containsSeq rest needle

/-- Python `str.lower()` character-wise. -/
def lowerChars (l : List Char) : List Char := l.map Char.toLower

/-- Python `s.split(sep)` for a single-character separator `'\n'`:
splits at every newline, keeping empty pieces. -/
def splitOnNl : List Char → List (List Char)
  | [] => [[]]
  | c :: rest =>
    if c = '\n' then [] :: splitOnNl rest
    else
      match splitOnNl rest with
      | [] => [[c]]
      | l :: ls => (c :: l) :: ls

/-- Worker for `removeAll`, structurally recursive on a fuel argument so that
it evaluates inside the kernel; every step consumes at least one character, so
fuel `l.length` is always enough. -/
def removeAllFuel (pat : List Char) : Nat → List Char → List Char
  | 0, l => l
  | _, [] => []
  | fuel + 1, c :: rest =>
    if pat.isPrefixOf (c :: rest) && !pat.isEmpty then
      removeAllFuel pat fuel (rest.drop (pat.length - 1))
    else
      c :: removeAllFuel pat fuel rest

/-- Python `s.replace(pat, '')` for a nonempty `pat`: remove every
(non-overlapping, leftmost-first) occurrence of `pat`.  The `!pat.isEmpty`
guard only rules out the empty pattern, which the code never passes. -/
def removeAll (pat l : List Char) : List Char :=
  removeAllFuel pat l.length l

/-- A trigger event record (src/agents/trigger_detection.py): an immutable
business signal appended to a company. -/
structure TriggerEvent where
  type : String := ""
  severity : String := ""
  description : String := ""
  source : String := ""
  deriving DecidableEq

/-- A contact record (src/agents/contact_research.py). -/
structure Contact where
  first_name : String := ""
  last_name : String := ""
  title : String := ""
  email : String := ""
  linkedin_url : String := ""
  email_valid : Bool := false
  data_sources : Int := 0
  confidence_score : ℚ := 0
  deriving DecidableEq

/-- The per-company lead-score breakdown dict built by
`LeadScoringTool._calculate_lead_score` (src/agents/pipeline_manager.py). -/
structure ScoreBreakdown where
  icp_score : ℚ := 0
  trigger_score : ℚ := 0
  contact_score : ℚ := 0
  timing_score : ℚ := 0
  company_health : ℚ := 0
  total_score : ℚ := 0
  deriving DecidableEq

/-- A company record as threaded through the pipeline stages. -/
structure Company where
  name : String := ""
  domain : String := ""
  industry : String := ""
  employee_count : Int := 0
  icp_score : ℚ := 0
  trigger_events : List TriggerEvent := []
  trigger_score : ℚ := 0
  contacts : List Contact := []
  contact_score : ℚ := 0
  lead_score : ℚ := 0
  score_breakdown : ScoreBreakdown := {}
  lead_grade : String := ""
  deriving DecidableEq

/-! ## src/agents/utils.py : `deduplicate_by_key` -/

/-- The loop of `deduplicate_by_key` (src/agents/utils.py lines 48–59),
returning both the kept records and the final seen-set.  `truthy` embeds
Python truthiness of the computed key. -/
def dedupAux {α K : Type} [DecidableEq K] (truthy : K → Bool) (key_func : α → K) :
    List α → List K → List α × List K
  | [], seen => ([], seen)
  | x :: xs, seen =>
    let k := key_func x
    if truthy k = true ∧ k ∉ seen then
      let r := dedupAux truthy key_func xs (k :: seen)
      (x :: r.1, r.2)
    else
      dedupAux truthy key_func xs seen

/-- `deduplicate_by_key` (src/agents/utils.py): keep the first occurrence per
truthy key, preserving order. -/
def deduplicate_by_key {α K : Type} [DecidableEq K] (truthy : K → Bool)
    (key_func : α → K) (items : List α) : List α :=
  (dedupAux truthy key_func items []).1

/-- The final seen-set produced by the `deduplicate_by_key` loop. -/
def dedupSeen {α K : Type} [DecidableEq K] (truthy : K → Bool)
    (key_func : α → K) (items : List α) : List K :=
  (dedupAux truthy key_func items []).2

/-! ## src/agents/company_discovery.py -/

/-- The dedup key of `CompanyDiscoveryTool._deduplicate_companies`:
`company.get('domain') or company['name'].lower()`. -/
def companyKey (c : Company) : String :=
  if truthyS c.domain then c.domain else ⟨lowerChars c.name.data⟩

/-- The loop of `CompanyDiscoveryTool._deduplicate_companies`
(src/agents/company_discovery.py lines 110–118).  Note: unlike
`deduplicate_by_key`, this loop tests only `key not in seen` — there is no
truthiness check on the key. -/
def dedupCompaniesAux : List Company → List String → List Company × List String
  | [], seen => ([], seen)
  | c :: cs, seen =>
    let k := companyKey c
    if k ∉ seen then
      let r := dedupCompaniesAux cs (k :: seen)
      (c :: r.1, r.2)
    else
      dedupCompaniesAux cs seen

/-- `CompanyDiscoveryTool._deduplicate_companies`. -/
def deduplicate_companies (cs : List Company) : List Company :=
  (dedupCompaniesAux cs []).1

/-- `CompanyDiscoveryTool._check_size_range` (lines 105–108):
bounds lookup with default `(0, 999999)`, then inclusive range test. -/
def check_size_range (count : Int) (size_range : String) : Bool :=
  let b : Int × Int :=
    if size_range = "startup" then (1, 50)
    else if size_range = "small" then (51, 200)
    else if size_range = "medium" then (201, 1000)
    else (0, 999999)
  decide (b.1 ≤ count ∧ count ≤ b.2)

/-- The ICP score computed by `CompanyDiscoveryTool._matches_icp`
(lines 89–103). -/
def icpScoreOf (company : Company) (industry size_range : String) : ℚ :=
  (if containsSeq (lowerChars company.industry.data) (lowerChars industry.data)
    then 30 else 0)
  + (if check_size_range company.employee_count size_range then 25 else 0)
  + (if truthyS company.name && truthyS company.domain then 20 else 0)

/-- `CompanyDiscoveryTool._matches_icp`: stores the ICP score on the company
and returns whether it passes the `>= 20` threshold. -/
def matches_icp (company : Company) (industry size_range : String) :
    Company × Bool :=
  let s := icpScoreOf company industry size_range
  ({ company with icp_score := s }, decide (s ≥ 20))

/-! ## Stable descending sort

Python's `sorted(..., key=score, reverse=True)` is a stable sort: the output
is descending in `score` and elements with equal score keep their original
relative order.  Those two properties determine the output list uniquely, so
the call is embedded as a stable insertion sort computing the same list. -/

/-- Insert `x` (originally located before every element of the list) in front
of the first element whose score is `≤ score x`. -/
def insortDesc {α : Type} (score : α → ℚ) (x : α) : List α → List α
  | [] => [x]
  | y :: ys => if score y ≤ score x then x :: y :: ys else y :: insortDesc score x ys

/-- Stable descending sort by `score`; embeds Python
`sorted(l, key=score, reverse=True)`. -/
def pySortDesc {α : Type} (score : α → ℚ) : List α → List α
  | [] => []
  | x :: xs => insortDesc score x (pySortDesc score xs)

/-! ## src/agents/contact_research.py -/

/-- `ContactResearchTool._calculate_confidence` (lines 159–165). -/
def calculate_confidence (c : Contact) : ℚ :=
  (if truthyS c.linkedin_url then 30 else 0)
  + (if c.email_valid then 25 else 0)
  + (if c.data_sources > 1 then 20 else 0)
  + (if truthyS c.first_name && truthyS c.last_name && truthyS c.title then 25 else 0)

/-- The confidence-setting step of `ContactResearchTool._enrich_contact_data`
(line 146): store the computed confidence on the record. -/
def enrich_confidence (c : Contact) : Contact :=
  { c with confidence_score := calculate_confidence c }

/-- `ContactResearchTool._validate_contact` (lines 167–170): all three
identity fields truthy and stored confidence `>= 50`. -/
def validate_contact (c : Contact) : Bool :=
  (truthyS c.first_name && truthyS c.last_name && truthyS c.title)
  && decide (c.confidence_score ≥ 50)

/-- The dedup key of `ContactResearchTool._deduplicate_contacts`:
`contact.get('email', '') or f"{first_name}_{last_name}"`. -/
def contactKey (c : Contact) : String :=
  if truthyS c.email then c.email else c.first_name ++ "_" ++ c.last_name

/-- The uniqueness loop of `ContactResearchTool._deduplicate_contacts`
(lines 172–179), before the final sort. -/
def dedupContactsAux : List Contact → List String → List Contact × List String
  | [], seen => ([], seen)
  | c :: cs, seen =>
    let k := contactKey c
    if truthyS k = true ∧ k ∉ seen then
      let r := dedupContactsAux cs (k :: seen)
      (c :: r.1, r.2)
    else
      dedupContactsAux cs seen

/-- `ContactResearchTool._deduplicate_contacts` (lines 172–180): uniqueness
loop, then a stable descending sort by `confidence_score`. -/
def deduplicate_contacts (cs : List Contact) : List Contact :=
  pySortDesc (fun c => c.confidence_score) (dedupContactsAux cs []).1

/-! ## src/agents/trigger_detection.py -/

/-- The severity weight used by `TriggerDetectionTool._calculate_trigger_score`
(lines 178–180): `{'high': 15, 'medium': 10, 'low': 5}` with default 5. -/
def severityWeight (s : String) : ℚ :=
  if s = "high" then 15 else if s = "medium" then 10 else 5

/-- `TriggerDetectionTool._calculate_trigger_score`. -/
def calculate_trigger_score (ts : List TriggerEvent) : ℚ :=
  (ts.map (fun t => severityWeight t.severity)).sum

/-- The per-company annotation step of `TriggerDetectionTool._run`
(lines 32–55); the four detector calls are the external search collaborator,
abstracted as `detect`. -/
def triggerAnnotate (detect : Company → List TriggerEvent) (c : Company) : Company :=
  { c with trigger_events := detect c,
           trigger_score := calculate_trigger_score (detect c) }

/-- `TriggerDetectionTool._run` (lines 20–57): annotate every company, then
`sorted(companies, key=lambda x: x.get('trigger_score', 0), reverse=True)`. -/
def trigger_detection_run (detect : Company → List TriggerEvent)
    (companies : List Company) : List Company :=
  pySortDesc (fun c => c.trigger_score) (companies.map (triggerAnnotate detect))

/-! ## src/agents/pipeline_manager.py : lead scoring -/

/-- `LeadScoringTool._assess_timing` (lines 43–49): 8 points per trigger whose
severity string contains `'high'`, capped at 15; 0 when there are no
triggers. -/
def assess_timing (c : Company) : ℚ :=
  if c.trigger_events = [] then 0
  else
    min (((c.trigger_events.countP
      (fun t => containsSeq t.severity.data "high".data)) : ℚ) * 8) 15

/-- `LeadScoringTool._assess_health` (lines 51–57). -/
def assess_health (c : Company) : ℚ :=
  (if c.trigger_events.isEmpty then 0 else 5)
  + (if c.employee_count > 50 then 5 else 0)

/-- `LeadScoringTool._calculate_lead_score` (lines 32–41): the five capped
components and their sum. -/
def calculate_lead_score (c : Company) : ScoreBreakdown :=
  let icp := min (c.icp_score * (3 / 10)) 25
  let trig := min (c.trigger_score * 2) 30
  let cont := min (c.contact_score * (1 / 5)) 20
  let timing := assess_timing c
  let health := assess_health c
  { icp_score := icp, trigger_score := trig, contact_score := cont,
    timing_score := timing, company_health := health,
    total_score := icp + trig + cont + timing + health }

/-- `LeadScoringTool._assign_grade` (lines 59–63). -/
def assign_grade (s : ℚ) : String :=
  if s ≥ 80 then "A" else if s ≥ 65 then "B" else if s ≥ 50 then "C" else "D"

/-- The per-company body of `LeadScoringTool._run` (lines 23–28): store
`lead_score`, `score_breakdown` and `lead_grade`. -/
def score_company (c : Company) : Company :=
  let b := calculate_lead_score c
  { c with lead_score := b.total_score, score_breakdown := b,
           lead_grade := assign_grade b.total_score }

/-! ## src/agents/pipeline_manager.py : CRM export -/

/-- A per-contact export outcome dict, as built by
`CRMIntegrationTool._create_hubspot_contact`. -/
structure CrmDetail where
  success : Bool := false
  error : Option String := none
  contact : String := ""
  note : Option String := none
  deriving DecidableEq

/-- The batch result dict of `CRMIntegrationTool._run`, instrumented with the
number of remote CRM calls performed. -/
structure CrmResults where
  success : Nat := 0
  errors : Nat := 0
  details : List CrmDetail := []
  remote_calls : Nat := 0
  message : Option String := none
  deriving DecidableEq

/-- `CRMIntegrationTool._create_hubspot_contact` (lines 100–186): the empty
(stripped) email check precedes the network call; everything from the
`requests.post` on (status-code interpretation included) is the external CRM
collaborator, abstracted as `post`.  The second component records whether the
remote collaborator was invoked. -/
def create_hubspot_contact (post : Contact → Company → CrmDetail)
    (contact : Contact) (company : Company) : CrmDetail × Bool :=
  if stripChars contact.email.data = [] then
    ({ success := false, error := some "Contact email is required",
       contact := if truthyS contact.first_name then contact.first_name
                  else "Unknown" }, false)
  else
    (post contact company, true)

/-- One iteration of the per-contact export loop of `CRMIntegrationTool._run`
(lines 86–96): tally the outcome and keep going. -/
def crmStep (post : Contact → Company → CrmDetail) (company : Company)
    (acc : CrmResults) (contact : Contact) : CrmResults :=
  let r := create_hubspot_contact post contact company
  { acc with
    success := acc.success + (if r.1.success then 1 else 0),
    errors := acc.errors + (if r.1.success then 0 else 1),
    details := acc.details ++ [r.1],
    remote_calls := acc.remote_calls + (if r.2 then 1 else 0) }

/-- `CRMIntegrationTool._run` (lines 74–98).  `min_grade` is the tool's
`min_grade` argument; `api_key_present` embeds
`os.getenv("HUBSPOT_API_KEY")` truthiness. -/
def crm_run (post : Contact → Company → CrmDetail) (companies : List Company)
    (min_grade : String) (api_key_present : Bool) : CrmResults :=
  if companies.isEmpty then
    { message := some "No companies provided for CRM export" }
  else
    let qualified := companies.filter
      (fun c => c.lead_grade = "A" || c.lead_grade = "B")
    if !api_key_present then
      { message := some "HubSpot API key not configured" }
    else
      qualified.foldl (fun acc comp => comp.contacts.foldl (crmStep post comp) acc) {}

/-! ## src/agents/message_generation.py : email response parsing -/

/-- A generated message dict: subject and body. -/
structure EmailMsg where
  subject : List Char := []
  body : List Char := []
  deriving DecidableEq

def subjMarker : List Char := "SUBJECT:".data

def bodyMarker : List Char := "BODY:".data

/-- The line loop of `MessageGenerationTool._parse_email_response`
(lines 126–132), carrying the current subject and the accumulated body
lines. -/
def parseLoop : List (List Char) → List Char × List (List Char) →
    List Char × List (List Char)
  | [], st => st
  | line :: rest, (subj, bodyLines) =>
    if subjMarker.isPrefixOf line then
      parseLoop rest (stripChars (removeAll subjMarker line), bodyLines)
    else if bodyMarker.isPrefixOf line then
      parseLoop rest (subj, bodyLines ++ [stripChars (removeAll bodyMarker line)])
    else if !bodyLines.isEmpty then
      parseLoop rest (subj, bodyLines ++ [line])
    else
      parseLoop rest (subj, bodyLines)

/-- `MessageGenerationTool._parse_email_response` (lines 121–137). -/
def parse_email_response (response : List Char) : EmailMsg :=
  let st := parseLoop (splitOnNl (stripChars response)) ([], [])
  { subject := st.1, body := stripChars (List.intercalate ['\n'] st.2) }

/-! ## Spec-side definitions

Definitions in this section follow the spec's / claims' words, for comparison
with the code embeddings above. -/

/-- Spec-side deduplication: a record is kept iff its key is truthy and no
earlier record of the input has an equal computed key (`prev` accumulates the
earlier records). -/
def keepIffSpec {α K : Type} [DecidableEq K] (truthy : K → Bool)
    (key_func : α → K) : List α → List α → List α
  | [], _ => []
  | x :: xs, prev =>
    if truthy (key_func x) = true ∧ ∀ y ∈ prev, key_func y ≠ key_func x then
      x :: keepIffSpec truthy key_func xs (prev ++ [x])
    else
      keepIffSpec truthy key_func xs (prev ++ [x])

/-- Spec-side company deduplication without a truthiness filter: a company is
kept iff no earlier company has an equal key. -/
def companyKeepSpec : List Company → List Company → List Company
  | [], _ => []
  | c :: cs, prev =>
    if ∀ y ∈ prev, companyKey y ≠ companyKey c then
      c :: companyKeepSpec cs (prev ++ [c])
    else
      companyKeepSpec cs (prev ++ [c])

/-- The stripped remainder of the first line carrying `marker`, together with
the lines after it. -/
def firstRemainder (marker : List Char) :
    List (List Char) → Option (List Char × List (List Char))
  | [] => none
  | l :: ls =>
    if marker.isPrefixOf l then some (l.drop marker.length, ls)
    else firstRemainder marker ls

/-- Modelled from the claim's words: subject is the remainder of the (first)
line beginning with `SUBJECT:`; body is the remainder of the (first) line
beginning with `BODY:` concatenated with every subsequent line until end of
text; lines before the first marker contribute to neither. -/
def parse_email_claimed (response : List Char) : EmailMsg :=
  let lines := splitOnNl (stripChars response)
  { subject :=
      match firstRemainder subjMarker lines with
      | some r => stripChars r.1
      | none => []
    body :=
      match firstRemainder bodyMarker lines with
      | some r => stripChars (List.intercalate ['\n'] (stripChars r.1 :: r.2))
      | none => [] }

/-- Amended description of the subject: the processed remainder (all
`SUBJECT:` occurrences removed, then stripped) of the last line beginning
with `SUBJECT:`, or empty if there is none. -/
def amendedSubject (lines : List (List Char)) : List Char :=
  match (lines.filter (fun l => subjMarker.isPrefixOf l)).getLast? with
  | some l => stripChars (removeAll subjMarker l)
  | none => []

/-- Amended description of the body lines: each line beginning with `BODY:`
contributes its processed remainder and starts (or continues) the body; a
line beginning with `SUBJECT:` is never part of the body; any other line is
included verbatim once the body has started. -/
def amendedBodyLines : List (List Char) → Bool → List (List Char)
  | [], _ => []
  | l :: ls, started =>
    if subjMarker.isPrefixOf l then amendedBodyLines ls started
    else if bodyMarker.isPrefixOf l then
      stripChars (removeAll bodyMarker l) :: amendedBodyLines ls true
    else if started then l :: amendedBodyLines ls true
    else amendedBodyLines ls false

/-- The amended parse: last-`SUBJECT:`-line subject, and body per
`amendedBodyLines`. -/
def parse_email_amended (response : List Char) : EmailMsg :=
  let lines := splitOnNl (stripChars response)
  { subject := amendedSubject lines,
    body := stripChars (List.intercalate ['\n'] (amendedBodyLines lines false)) }

/-- The CRM-qualified companies: lead grade `A` or `B` (the hardcoded filter
of `CRMIntegrationTool._run`, line 79). -/
def crmQualified (companies : List Company) : List Company :=
  companies.filter (fun c => c.lead_grade = "A" || c.lead_grade = "B")

/-- Spec-side description of the per-contact outcomes of a CRM export batch:
one outcome per contact of every qualified company, in order. -/
def crmDetailsSpec (post : Contact → Company → CrmDetail)
    (companies : List Company) : List CrmDetail :=
  (crmQualified companies).flatMap
    (fun comp => comp.contacts.map (fun ct => (create_hubspot_contact post ct comp).1))

/-! ## Concrete records used in counterexamples and witnesses -/

/-- A company record with empty name and domain: its dedup key is the empty
(falsy) string. -/
def blankCo : Company := {}

/-- The ICP-matching example of spec §8. -/
def saasCo : Company :=
  { name := "Acme", domain := "acme.com", industry := "SaaS", employee_count := 30 }

/-- A concrete LLM reply whose `SUBJECT:` line comes after the `BODY:` line. -/
def exResponse : List Char := "BODY: a\nSUBJECT: b".data

/-- A concrete company for the lead-scoring witness. -/
def wScoredCo : Company :=
  { icp_score := 50, trigger_score := 10, contact_score := 50,
    employee_count := 100, trigger_events := [{ severity := "high" }] }

/-- A concrete fully-populated contact for the confidence witness. -/
def wConf : Contact :=
  { first_name := "Jane", last_name := "Doe", title := "CTO",
    email_valid := true, linkedin_url := "linkedin.com/in/janedoe", data_sources := 2 }

/-- A remote CRM collaborator that always succeeds. -/
def wPost : Contact → Company → CrmDetail := fun _ _ => { success := true }

/-- A grade-A company holding one contact with an empty email. -/
def wExportCos : List Company := [{ lead_grade := "A", contacts := [{}] }]

/-! ## Deduplication lemmas -/

section DedupLemmas

variable {α K : Type} [DecidableEq K] (truthy : K → Bool) (key_func : α → K)

/-- Every record kept by the `deduplicate_by_key` loop has a truthy key. -/
theorem dedupAux_fst_truthy : ∀ (xs : List α) (seen : List K),
    ∀ y ∈ (dedupAux truthy key_func xs seen).1, truthy (key_func y) = true := by
  intro xs
  induction xs with
  | nil => intro seen y hy; simp [dedupAux] at hy
  | cons x xs ih =>
    intro seen y hy
    simp only [dedupAux] at hy
    split at hy
    · rcases List.mem_cons.mp hy with rfl | hy'
      · exact (by assumption : truthy (key_func y) = true ∧ _).1
      · exact ih _ y hy'
    · exact ih _ y hy

/-- Every key kept by the loop is outside the initial seen-set. -/
theorem dedupAux_fst_not_seen : ∀ (xs : List α) (seen : List K),
    ∀ y ∈ (dedupAux truthy key_func xs seen).1, key_func y ∉ seen := by
  intro xs
  induction xs with
  | nil => intro seen y hy; simp [dedupAux] at hy
  | cons x xs ih =>
    intro seen y hy
    simp only [dedupAux] at hy
    split at hy
    · rcases List.mem_cons.mp hy with rfl | hy'
      · exact (by assumption : truthy (key_func y) = true ∧ key_func y ∉ seen).2
      · intro hmem
        exact ih _ y hy' (List.mem_cons_of_mem _ hmem)
    · exact ih _ y hy

/-- The kept records have pairwise distinct keys. -/
theorem dedupAux_fst_nodup : ∀ (xs : List α) (seen : List K),
    ((dedupAux truthy key_func xs seen).1.map key_func).Nodup := by
  intro xs
  induction xs with
  | nil => intro seen; simp [dedupAux]
  | cons x xs ih =>
    intro seen
    simp only [dedupAux]
    split
    · simp only [List.map_cons, List.nodup_cons, List.mem_map]
      refine ⟨?_, ih _⟩
      rintro ⟨y, hy, hkey⟩
      exact dedupAux_fst_not_seen truthy key_func xs (key_func x :: seen) y hy
        (hkey ▸ List.mem_cons_self _ _)
    · exact ih _

/-- A list whose keys are truthy, pairwise distinct and disjoint from `seen`
passes through the loop unchanged. -/
theorem dedupAux_fst_of_clean : ∀ (l : List α) (seen : List K),
    (∀ y ∈ l, truthy (key_func y) = true) →
    ((l.map key_func).Nodup) →
    (∀ y ∈ l, key_func y ∉ seen) →
    (dedupAux truthy key_func l seen).1 = l := by
  intro l
  induction l with
  | nil => intro seen _ _ _; simp [dedupAux]
  | cons x xs ih =>
    intro seen htruthy hnodup hdisj
    simp only [dedupAux]
    rw [if_pos ⟨htruthy x (List.mem_cons_self _ _), hdisj x (List.mem_cons_self _ _)⟩]
    simp only [List.map_cons, List.nodup_cons, List.mem_map] at hnodup
    refine congrArg (x :: ·) (ih _ ?_ hnodup.2 ?_)
    · exact fun y hy => htruthy y (List.mem_cons_of_mem _ hy)
    · intro y hy hmem
      rcases List.mem_cons.mp hmem with heq | hmem'
      · exact hnodup.1 ⟨y, hy, heq⟩
      · exact hdisj y (List.mem_cons_of_mem _ hy) hmem'

/-- The `deduplicate_by_key` loop agrees with the spec-side description:
relative to a set `seen` that contains exactly the truthy keys of the earlier
records `prev`, a record is kept iff its key is truthy and no earlier record
has an equal key. -/
theorem dedupAux_eq_keepIffSpec : ∀ (xs : List α) (prev : List α) (seen : List K),
    (∀ k, k ∈ seen ↔ (truthy k = true ∧ ∃ y ∈ prev, key_func y = k)) →
    (dedupAux truthy key_func xs seen).1 = keepIffSpec truthy key_func xs prev := by
  intro xs
  induction xs with
  | nil => intro prev seen _; simp [dedupAux, keepIffSpec]
  | cons x xs ih =>
    intro prev seen hinv
    simp only [dedupAux, keepIffSpec]
    by_cases ht : truthy (key_func x) = true
    · by_cases hseen : key_func x ∈ seen
      · rw [if_neg (by simp [hseen]), if_neg ?_]
        · refine ih _ _ ?_
          intro k
          rw [hinv k]
          constructor
          · rintro ⟨hk, y, hy, hky⟩
            exact ⟨hk, y, List.mem_append_left _ hy, hky⟩
          · rintro ⟨hk, y, hy, hky⟩
            rcases List.mem_append.mp hy with hy' | hy'
            · exact ⟨hk, y, hy', hky⟩
            · rcases List.mem_singleton.mp hy' with rfl
              exact hky ▸ ((hinv (key_func y)).mp (hky ▸ hseen))
        · rintro ⟨-, hall⟩
          rcases ((hinv (key_func x)).mp hseen).2 with ⟨y, hy, hky⟩
          exact hall y hy hky
      · have hall : ∀ y ∈ prev, key_func y ≠ key_func x := by
          intro y hy hky
          exact hseen ((hinv (key_func x)).mpr ⟨ht, y, hy, hky⟩)
        rw [if_pos ⟨ht, hseen⟩, if_pos ⟨ht, hall⟩]
        refine congrArg (x :: ·) (ih _ _ ?_)
        intro k
        constructor
        · intro hk
          rcases List.mem_cons.mp hk with rfl | hk'
          · exact ⟨ht, x, List.mem_append_right _ (List.mem_singleton_self _), rfl⟩
          · rcases (hinv k).mp hk' with ⟨htk, y, hy, hky⟩
            exact ⟨htk, y, List.mem_append_left _ hy, hky⟩
        · rintro ⟨htk, y, hy, hky⟩
          rcases List.mem_append.mp hy with hy' | hy'
          · exact List.mem_cons_of_mem _ ((hinv k).mpr ⟨htk, y, hy', hky⟩)
          · rcases List.mem_singleton.mp hy' with rfl
            exact hky ▸ List.mem_cons_self _ _
    · rw [if_neg (by simp [ht]), if_neg (by simp [ht])]
      refine ih _ _ ?_
      intro k
      rw [hinv k]
      constructor
      · rintro ⟨hk, y, hy, hky⟩
        exact ⟨hk, y, List.mem_append_left _ hy, hky⟩
      · rintro ⟨hk, y, hy, hky⟩
        rcases List.mem_append.mp hy with hy' | hy'
        · exact ⟨hk, y, hy', hky⟩
        · rcases List.mem_singleton.mp hy' with rfl
          exact absurd (hky ▸ hk) (by simp [ht])

/-- Only truthy keys ever enter the seen-set. -/
theorem dedupAux_snd_truthy : ∀ (xs : List α) (seen : List K),
    ∀ k ∈ (dedupAux truthy key_func xs seen).2, truthy k = true ∨ k ∈ seen := by
  intro xs
  induction xs with
  | nil => intro seen k hk; exact Or.inr hk
  | cons x xs ih =>
    intro seen k hk
    simp only [dedupAux] at hk
    split at hk
    · rename_i hcond
      rcases ih _ k hk with h | h
      · exact Or.inl h
      · rcases List.mem_cons.mp h with rfl | h'
        · exact Or.inl hcond.1
        · exact Or.inr h'
    · exact ih _ k hk

end DedupLemmas

/-- The contact-dedup loop is the generic `deduplicate_by_key` loop
instantiated with string truthiness and the email-or-name-pair key. -/
theorem dedupContactsAux_eq : ∀ (cs : List Contact) (seen : List String),
    dedupContactsAux cs seen = dedupAux truthyS contactKey cs seen := by
  intro cs
  induction cs with
  | nil => intro seen; rfl
  | cons c cs ih => intro seen; simp only [dedupContactsAux, dedupAux, ih]

/-- The company-dedup loop agrees with the spec-side first-occurrence-per-key
description (no truthiness filter): relative to a `seen` set holding exactly
the keys of the earlier companies. -/
theorem dedupCompaniesAux_eq_spec : ∀ (cs prev : List Company) (seen : List String),
    (∀ k, k ∈ seen ↔ ∃ y ∈ prev, companyKey y = k) →
    (dedupCompaniesAux cs seen).1 = companyKeepSpec cs prev := by
  intro cs
  induction cs with
  | nil => intro prev seen _; simp [dedupCompaniesAux, companyKeepSpec]
  | cons c cs ih =>
    intro prev seen hinv
    simp only [dedupCompaniesAux, companyKeepSpec]
    by_cases hseen : companyKey c ∈ seen
    · rw [if_neg (by simpa using hseen), if_neg ?_]
      · refine ih _ _ ?_
        intro k
        rw [hinv k]
        constructor
        · rintro ⟨y, hy, hky⟩
          exact ⟨y, List.mem_append_left _ hy, hky⟩
        · rintro ⟨y, hy, hky⟩
          rcases List.mem_append.mp hy with hy' | hy'
          · exact ⟨y, hy', hky⟩
          · rcases List.mem_singleton.mp hy' with rfl
            exact hky ▸ ((hinv (companyKey y)).mp (hky ▸ hseen))
      · intro hall
        rcases (hinv (companyKey c)).mp hseen with ⟨y, hy, hky⟩
        exact hall y hy hky
    · have hall : ∀ y ∈ prev, companyKey y ≠ companyKey c := by
        intro y hy hky
        exact hseen ((hinv (companyKey c)).mpr ⟨y, hy, hky⟩)
      rw [if_pos hseen, if_pos hall]
      refine congrArg (c :: ·) (ih _ _ ?_)
      intro k
      constructor
      · intro hk
        rcases List.mem_cons.mp hk with rfl | hk'
        · exact ⟨c, List.mem_append_right _ (List.mem_singleton_self _), rfl⟩
        · rcases (hinv k).mp hk' with ⟨y, hy, hky⟩
          exact ⟨y, List.mem_append_left _ hy, hky⟩
      · rintro ⟨y, hy, hky⟩
        rcases List.mem_append.mp hy with hy' | hy'
        · exact List.mem_cons_of_mem _ ((hinv k).mpr ⟨y, hy', hky⟩)
        · rcases List.mem_singleton.mp hy' with rfl
          exact hky ▸ List.mem_cons_self _ _

/-! ## Stable-sort lemmas -/

section SortLemmas

variable {α : Type} (score : α → ℚ)

theorem insortDesc_mem (x : α) : ∀ (l : List α) (z : α),
    z ∈ insortDesc score x l ↔ z = x ∨ z ∈ l := by
  intro l
  induction l with
  | nil => intro z; simp [insortDesc]
  | cons y ys ih =>
    intro z
    simp only [insortDesc]
    by_cases h : score y ≤ score x
    · rw [if_pos h]; simp
    · rw [if_neg h]
      simp only [List.mem_cons, ih]
      tauto

theorem insortDesc_pairwise (x : α) : ∀ (l : List α),
    List.Pairwise (fun a b => score b ≤ score a) l →
    List.Pairwise (fun a b => score b ≤ score a) (insortDesc score x l) := by
  intro l
  induction l with
  | nil => intro _; simp [insortDesc]
  | cons y ys ih =>
    intro h
    rw [List.pairwise_cons] at h
    simp only [insortDesc]
    by_cases hle : score y ≤ score x
    · rw [if_pos hle]
      refine List.pairwise_cons.mpr ⟨?_, List.pairwise_cons.mpr h⟩
      intro z hz
      rcases List.mem_cons.mp hz with rfl | hz'
      · exact hle
      · exact le_trans (h.1 z hz') hle
    · rw [if_neg hle]
      refine List.pairwise_cons.mpr ⟨?_, ih h.2⟩
      intro z hz
      rcases (insortDesc_mem score x ys z).mp hz with rfl | hz'
      · exact le_of_lt (lt_of_not_le hle)
      · exact h.1 z hz'

theorem pySortDesc_pairwise : ∀ (l : List α),
    List.Pairwise (fun a b => score b ≤ score a) (pySortDesc score l) := by
  intro l
  induction l with
  | nil => simp [pySortDesc]
  | cons x xs ih => exact insortDesc_pairwise score x _ ih

theorem insortDesc_filter_of_eq (v : ℚ) (x : α) (hx : score x = v) : ∀ (l : List α),
    (insortDesc score x l).filter (fun z => decide (score z = v)) =
      x :: l.filter (fun z => decide (score z = v)) := by
  intro l
  induction l with
  | nil => simp [insortDesc, hx]
  | cons y ys ih =>
    simp only [insortDesc]
    by_cases hle : score y ≤ score x
    · rw [if_pos hle]
      simp [List.filter_cons, hx]
    · rw [if_neg hle]
      have hy : ¬ (score y = v) := fun h => hle (le_of_eq (hx ▸ h))
      simp [List.filter_cons, hy, ih]

theorem insortDesc_filter_of_ne (v : ℚ) (x : α) (hx : ¬ score x = v) : ∀ (l : List α),
    (insortDesc score x l).filter (fun z => decide (score z = v)) =
      l.filter (fun z => decide (score z = v)) := by
  intro l
  induction l with
  | nil => simp [insortDesc, hx]
  | cons y ys ih =>
    simp only [insortDesc]
    by_cases hle : score y ≤ score x
    · rw [if_pos hle]
      simp [List.filter_cons, hx]
    · rw [if_neg hle]
      simp [List.filter_cons, ih]

/-- Stability: sorting does not change the subsequence of elements at any
fixed score value. -/
theorem pySortDesc_filter (v : ℚ) : ∀ (l : List α),
    (pySortDesc score l).filter (fun z => decide (score z = v)) =
      l.filter (fun z => decide (score z = v)) := by
  intro l
  induction l with
  | nil => simp [pySortDesc]
  | cons x xs ih =>
    simp only [pySortDesc]
    by_cases hx : score x = v
    · rw [insortDesc_filter_of_eq score v x hx, ih]
      simp [List.filter_cons, hx]
    · rw [insortDesc_filter_of_ne score v x hx, ih]
      simp [List.filter_cons, hx]

end SortLemmas

/-! ## Email-parse lemmas -/

theorem getLast?_cons_elim {β : Type} (a : β) (l : List β) :
    (a :: l).getLast? = match l.getLast? with
      | none => some a
      | some b => some b := by
  cases l with
  | nil => rfl
  | cons b bs =>
    rw [List.getLast?_cons_cons]
    cases h : (b :: bs).getLast? with
    | none =>
      have h2 : ((b :: bs).getLast?).isSome = true :=
        List.getLast?_isSome.mpr (by simp)
      rw [h] at h2
      simp at h2
    | some y => rfl

/-- The subject computed by the parse loop: the processed remainder of the
last `SUBJECT:`-prefixed line, defaulting to the incoming subject. -/
theorem parseLoop_fst : ∀ (lines : List (List Char)) (subj : List Char)
    (acc : List (List Char)),
    (parseLoop lines (subj, acc)).1 =
      match (lines.filter (fun l => subjMarker.isPrefixOf l)).getLast? with
      | some l => stripChars (removeAll subjMarker l)
      | none => subj := by
  intro lines
  induction lines with
  | nil => intro subj acc; rfl
  | cons line rest ih =>
    intro subj acc
    simp only [parseLoop]
    by_cases h1 : subjMarker.isPrefixOf line
    · rw [if_pos h1, ih, List.filter_cons_of_pos (by simpa using h1),
        getLast?_cons_elim]
      cases h : (rest.filter (fun l => subjMarker.isPrefixOf l)).getLast? <;> simp [h]
    · rw [if_neg h1, List.filter_cons_of_neg (by simpa using h1)]
      by_cases h2 : bodyMarker.isPrefixOf line
      · rw [if_pos h2, ih]
      · rw [if_neg h2]
        by_cases h3 : acc.isEmpty
        · rw [if_neg (by simp [h3]), ih]
        · rw [if_pos (by simp [Bool.not_eq_true] at h3 ⊢; simp [h3]), ih]

/-- The body lines accumulated by the parse loop, relative to whether the body
has already started (`acc` nonempty). -/
theorem parseLoop_snd : ∀ (lines : List (List Char)) (subj : List Char)
    (acc : List (List Char)),
    (parseLoop lines (subj, acc)).2 = acc ++ amendedBodyLines lines (!acc.isEmpty) := by
  intro lines
  induction lines with
  | nil => intro subj acc; simp [parseLoop, amendedBodyLines]
  | cons line rest ih =>
    intro subj acc
    simp only [parseLoop, amendedBodyLines]
    by_cases h1 : subjMarker.isPrefixOf line
    · rw [if_pos h1, if_pos h1, ih]
    · rw [if_neg h1, if_neg h1]
      by_cases h2 : bodyMarker.isPrefixOf line
      · rw [if_pos h2, if_pos h2, ih]
        have he : (acc ++ [stripChars (removeAll bodyMarker line)]).isEmpty = false := by
          simp
        rw [he]
        simp
      · rw [if_neg h2, if_neg h2]
        by_cases h3 : acc.isEmpty
        · rw [if_neg (by simp [h3]), if_neg (by simp [h3]), ih, h3]
          simp [List.isEmpty_iff.mp h3]
        · have h3' : acc.isEmpty = false := by
            simpa [Bool.not_eq_true] using h3
          rw [if_pos (by simp [h3']), if_pos (by simp [h3']), ih]
          have he : (acc ++ [line]).isEmpty = false := by simp
          rw [he]
          simp

/-! ## CRM fold lemmas -/

section CrmLemmas

variable (post : Contact → Company → CrmDetail) (comp : Company)

theorem foldl_crmStep_details : ∀ (cts : List Contact) (acc : CrmResults),
    (cts.foldl (crmStep post comp) acc).details =
      acc.details ++ cts.map (fun ct => (create_hubspot_contact post ct comp).1) := by
  intro cts
  induction cts with
  | nil => intro acc; simp
  | cons ct cts ih =>
    intro acc
    simp [List.foldl_cons, crmStep, ih]

theorem foldl_crmStep_success : ∀ (cts : List Contact) (acc : CrmResults),
    (cts.foldl (crmStep post comp) acc).success =
      acc.success +
        (cts.map (fun ct => (create_hubspot_contact post ct comp).1)).countP
          (fun d => d.success) := by
  intro cts
  induction cts with
  | nil => intro acc; simp
  | cons ct cts ih =>
    intro acc
    by_cases hs : (create_hubspot_contact post ct comp).1.success
    · simp [List.foldl_cons, crmStep, ih, List.countP_cons, hs]
      omega
    · simp [List.foldl_cons, crmStep, ih, List.countP_cons, hs]

theorem foldl_crmStep_errors : ∀ (cts : List Contact) (acc : CrmResults),
    (cts.foldl (crmStep post comp) acc).errors =
      acc.errors +
        (cts.map (fun ct => (create_hubspot_contact post ct comp).1)).countP
          (fun d => !d.success) := by
  intro cts
  induction cts with
  | nil => intro acc; simp
  | cons ct cts ih =>
    intro acc
    by_cases hs : (create_hubspot_contact post ct comp).1.success
    · simp [List.foldl_cons, crmStep, ih, List.countP_cons, hs]
    · simp [List.foldl_cons, crmStep, ih, List.countP_cons, hs]
      omega

theorem foldl_crmStep_remote : ∀ (cts : List Contact) (acc : CrmResults),
    (cts.foldl (crmStep post comp) acc).remote_calls =
      acc.remote_calls +
        cts.countP (fun ct => (create_hubspot_contact post ct comp).2) := by
  intro cts
  induction cts with
  | nil => intro acc; simp
  | cons ct cts ih =>
    intro acc
    by_cases hs : (create_hubspot_contact post ct comp).2
    · simp [List.foldl_cons, crmStep, ih, List.countP_cons, hs]
      omega
    · simp [List.foldl_cons, crmStep, ih, List.countP_cons, hs]

end CrmLemmas

section CrmOuterLemmas

variable (post : Contact → Company → CrmDetail)

theorem crm_foldl_details : ∀ (qs : List Company) (acc : CrmResults),
    (qs.foldl (fun acc comp => comp.contacts.foldl (crmStep post comp) acc) acc).details =
      acc.details ++ qs.flatMap
        (fun comp => comp.contacts.map (fun ct => (create_hubspot_contact post ct comp).1)) := by
  intro qs
  induction qs with
  | nil => intro acc; simp
  | cons q qs ih =>
    intro acc
    simp [List.foldl_cons, ih, foldl_crmStep_details, List.flatMap_cons,
      List.append_assoc]

theorem crm_foldl_success : ∀ (qs : List Company) (acc : CrmResults),
    (qs.foldl (fun acc comp => comp.contacts.foldl (crmStep post comp) acc) acc).success =
      acc.success + (qs.flatMap
        (fun comp => comp.contacts.map (fun ct => (create_hubspot_contact post ct comp).1))).countP
          (fun d => d.success) := by
  intro qs
  induction qs with
  | nil => intro acc; simp
  | cons q qs ih =>
    intro acc
    simp [List.foldl_cons, ih, foldl_crmStep_success, List.flatMap_cons,
      List.countP_append]
    omega

theorem crm_foldl_errors : ∀ (qs : List Company) (acc : CrmResults),
    (qs.foldl (fun acc comp => comp.contacts.foldl (crmStep post comp) acc) acc).errors =
      acc.errors + (qs.flatMap
        (fun comp => comp.contacts.map (fun ct => (create_hubspot_contact post ct comp).1))).countP
          (fun d => !d.success) := by
  intro qs
  induction qs with
  | nil => intro acc; simp
  | cons q qs ih =>
    intro acc
    simp [List.foldl_cons, ih, foldl_crmStep_errors, List.flatMap_cons,
      List.countP_append]
    omega

theorem crm_foldl_remote : ∀ (qs : List Company) (acc : CrmResults),
    (qs.foldl (fun acc comp => comp.contacts.foldl (crmStep post comp) acc) acc).remote_calls =
      acc.remote_calls + (qs.flatMap (fun comp => comp.contacts)).countP
        (fun ct => !(stripChars ct.email.data).isEmpty) := by
  intro qs
  induction qs with
  | nil => intro acc; simp
  | cons q qs ih =>
    intro acc
    have hpt : ∀ ct, (create_hubspot_contact post ct q).2 =
        !(stripChars ct.email.data).isEmpty := by
      intro ct
      rw [create_hubspot_contact]
      by_cases h : stripChars ct.email.data = []
      · rw [if_pos h]
        simp [h]
      · rw [if_neg h]
        simp [List.isEmpty_iff, h]
    have hcount : q.contacts.countP (fun ct => (create_hubspot_contact post ct q).2) =
        q.contacts.countP (fun ct => !(stripChars ct.email.data).isEmpty) :=
      List.countP_congr (fun ct _ => by rw [hpt ct])
    simp [List.foldl_cons, ih, foldl_crmStep_remote, List.flatMap_cons,
      List.countP_append, hcount]
    omega

end CrmOuterLemmas

/-! ## Miscellaneous helper lemmas -/

theorem truthyS_iff (s : String) : truthyS s = true ↔ s ≠ "" := by
  cases s with
  | mk data =>
    simp [truthyS, List.isEmpty_iff, String.ext_iff]

theorem assign_grade_A_iff (s : ℚ) : assign_grade s = "A" ↔ 80 ≤ s := by
  unfold assign_grade
  split_ifs with g1 g2 g3 <;> simp [g1]

theorem assign_grade_B_iff (s : ℚ) : assign_grade s = "B" ↔ 65 ≤ s ∧ s < 80 := by
  unfold assign_grade
  split_ifs with g1 g2 g3
  · constructor
    · intro h
      exact absurd h (by decide)
    · rintro ⟨-, h80⟩
      linarith
  · simp only [true_iff]
    exact ⟨g2, by linarith⟩
  · constructor
    · intro h
      exact absurd h (by decide)
    · rintro ⟨h65, -⟩
      exact absurd h65 g2
  · constructor
    · intro h
      exact absurd h (by decide)
    · rintro ⟨h65, -⟩
      exact absurd h65 g2

theorem assign_grade_C_iff (s : ℚ) : assign_grade s = "C" ↔ 50 ≤ s ∧ s < 65 := by
  unfold assign_grade
  split_ifs with g1 g2 g3
  · constructor
    · intro h
      exact absurd h (by decide)
    · rintro ⟨-, h65⟩
      linarith
  · constructor
    · intro h
      exact absurd h (by decide)
    · rintro ⟨-, h65⟩
      exact absurd g2 (by linarith)
  · simp only [true_iff]
    exact ⟨g3, by simpa using g2⟩
  · constructor
    · intro h
      exact absurd h (by decide)
    · rintro ⟨h50, -⟩
      exact absurd h50 g3

theorem assign_grade_D_iff (s : ℚ) : assign_grade s = "D" ↔ s < 50 := by
  unfold assign_grade
  split_ifs with g1 g2 g3
  · constructor
    · intro h
      exact absurd h (by decide)
    · intro h
      linarith
  · constructor
    · intro h
      exact absurd h (by decide)
    · intro h
      exact absurd g2 (by linarith)
  · constructor
    · intro h
      exact absurd h (by decide)
    · intro h
      exact absurd g3 (by linarith)
  · simp only [true_iff]
    simpa using g3

/-! ## Claims -/

/-- C6.  Deduplication is idempotent: `deduplicate_by_key` applied to its own
output (same key function) returns it unchanged. -/
theorem C6_dedup_idempotent {α K : Type} [DecidableEq K] (truthy : K → Bool)
    (key_func : α → K) (items : List α) :
    deduplicate_by_key truthy key_func (deduplicate_by_key truthy key_func items) =
      deduplicate_by_key truthy key_func items := by
  unfold deduplicate_by_key
  exact dedupAux_fst_of_clean truthy key_func _ []
    (dedupAux_fst_truthy truthy key_func items [])
    (dedupAux_fst_nodup truthy key_func items [])
    (fun y _ => List.not_mem_nil _)

/-- C1 (amended).  The generic `deduplicate_by_key` keeps a record iff its key
is truthy and no earlier record has an equal key, and neither its output nor
its seen-set ever holds a falsy key; contact deduplication is the same filter
(key: email, else `first_name_last_name`) followed by a stable descending sort
by confidence; company deduplication applies no truthiness filter — a company
is kept iff its key (domain, else lowercased name, possibly empty) has not
appeared earlier. -/
theorem C1_dedup_keep_iff {α K : Type} [DecidableEq K] (truthy : K → Bool)
    (key_func : α → K) (items : List α) (cs : List Contact) (ws : List Company) :
    deduplicate_by_key truthy key_func items = keepIffSpec truthy key_func items []
    ∧ (deduplicate_by_key truthy key_func items).all (fun y => truthy (key_func y)) = true
    ∧ (dedupSeen truthy key_func items).all truthy = true
    ∧ (dedupContactsAux cs []).1 = keepIffSpec truthyS contactKey cs []
    ∧ deduplicate_contacts cs =
        pySortDesc (fun c : Contact => c.confidence_score)
          (keepIffSpec truthyS contactKey cs [])
    ∧ deduplicate_companies ws = companyKeepSpec ws [] := by
  refine ⟨?_, ?_, ?_, ?_, ?_, ?_⟩
  · exact dedupAux_eq_keepIffSpec truthy key_func items [] [] (by simp)
  · exact List.all_eq_true.mpr
      (fun y hy => by simpa using dedupAux_fst_truthy truthy key_func items [] y hy)
  · refine List.all_eq_true.mpr (fun k hk => ?_)
    rcases dedupAux_snd_truthy truthy key_func items [] k hk with h | h
    · simpa using h
    · exact absurd h (List.not_mem_nil _)
  · rw [dedupContactsAux_eq]
    exact dedupAux_eq_keepIffSpec truthyS contactKey cs [] [] (by simp)
  · unfold deduplicate_contacts
    rw [dedupContactsAux_eq]
    exact congrArg _ (dedupAux_eq_keepIffSpec truthyS contactKey cs [] [] (by simp))
  · exact dedupCompaniesAux_eq_spec ws [] [] (by simp)

/-- C1 counterexample: a company whose dedup key is falsy (empty name and
domain) is nevertheless kept by `_deduplicate_companies`, contradicting the
claim that records with a falsy key appear in neither the seen-set nor the
output of company deduplication. -/
theorem C1_falsy_key_company_kept :
    truthyS (companyKey blankCo) = false
    ∧ deduplicate_companies [blankCo] = [blankCo]
    ∧ (dedupCompaniesAux [blankCo] []).2 = [""] := by
  refine ⟨by decide, by decide, by decide⟩

/-- C7.  The Trigger Detection stage returns the annotated companies sorted in
descending `trigger_score` order, and stably so: at every score value the
output subsequence equals the pre-sort subsequence. -/
theorem C7_trigger_sort_stable (detect : Company → List TriggerEvent)
    (companies : List Company) :
    List.Pairwise (fun a b => b.trigger_score ≤ a.trigger_score)
      (trigger_detection_run detect companies)
    ∧ ∀ v : ℚ,
        (trigger_detection_run detect companies).filter
          (fun c => decide (c.trigger_score = v)) =
        (companies.map (triggerAnnotate detect)).filter
          (fun c => decide (c.trigger_score = v)) := by
  constructor
  · exact pySortDesc_pairwise (fun c : Company => c.trigger_score) _
  · intro v
    exact pySortDesc_filter (fun c : Company => c.trigger_score) v _

/-- C8 counterexample: on a reply whose `SUBJECT:` line follows the `BODY:`
line, the parser's body is just `a` — the subsequent `SUBJECT:`-marked line
updates the subject instead of being concatenated to the body, contradicting
the claim that the body holds every line after `BODY:` until end of text. -/
theorem C8_subject_after_body :
    parse_email_response exResponse ≠ parse_email_claimed exResponse
    ∧ (parse_email_response exResponse).body = "a".data
    ∧ (parse_email_claimed exResponse).body = "a\nSUBJECT: b".data
    ∧ (parse_email_response exResponse).subject = "b".data := by
  refine ⟨by decide, by decide, by decide, by decide⟩

/-- C8 (amended).  The parser's subject is the processed remainder of the last
`SUBJECT:`-prefixed line; the body collects, from the first `BODY:`-prefixed
line on, the processed remainder of every `BODY:` line and every other
non-`SUBJECT:` line verbatim — a later `SUBJECT:` line updates the subject and
never enters the body; lines before the first marker are discarded. -/
theorem C8_parse_email (response : List Char) :
    parse_email_response response = parse_email_amended response := by
  simp only [parse_email_response, parse_email_amended, amendedSubject]
  rw [parseLoop_fst, parseLoop_snd]
  simp

/-- C10 (implicit claim).  The CRM export ignores its `min_grade` parameter:
any two invocations differing only in `min_grade` return identical results,
and the exported details are exactly those of the contacts of the grade-A/B
companies. -/
theorem C10_min_grade_ignored (post : Contact → Company → CrmDetail)
    (companies : List Company) (g₁ g₂ : String) (api_key_present : Bool) :
    crm_run post companies g₁ api_key_present = crm_run post companies g₂ api_key_present
    ∧ (crm_run post companies g₁ true).details = crmDetailsSpec post companies := by
  refine ⟨rfl, ?_⟩
  unfold crm_run crmDetailsSpec crmQualified
  by_cases hc : companies.isEmpty
  · rw [if_pos hc]
    simp [List.isEmpty_iff.mp hc]
  · rw [if_neg hc]
    simp [crm_foldl_details]

/-- C9.  A contact whose email strips to empty yields the "Contact email is
required" failure without invoking the remote CRM collaborator; the batch run
nevertheless produces one outcome per contact of every qualified company (so
processing continues), tallies errors as the failed outcomes, and performs a
remote call only for contacts with a nonempty stripped email. -/
theorem C9_empty_email_rejected (post : Contact → Company → CrmDetail)
    (contact : Contact) (company : Company) (companies : List Company)
    (min_grade : String) (h : stripChars contact.email.data = []) :
    create_hubspot_contact post contact company =
      ({ success := false, error := some "Contact email is required",
         contact := if truthyS contact.first_name then contact.first_name
                    else "Unknown" }, false)
    ∧ (crm_run post companies min_grade true).details = crmDetailsSpec post companies
    ∧ (crm_run post companies min_grade true).errors =
        (crmDetailsSpec post companies).countP (fun d => !d.success)
    ∧ (crm_run post companies min_grade true).success =
        (crmDetailsSpec post companies).countP (fun d => d.success)
    ∧ (crm_run post companies min_grade true).remote_calls =
        ((crmQualified companies).flatMap (fun comp => comp.contacts)).countP
          (fun ct => !(stripChars ct.email.data).isEmpty) := by
  refine ⟨?_, ?_, ?_, ?_, ?_⟩
  · rw [create_hubspot_contact, if_pos h]
  · unfold crm_run crmDetailsSpec crmQualified
    by_cases hc : companies.isEmpty
    · rw [if_pos hc]
      simp [List.isEmpty_iff.mp hc]
    · rw [if_neg hc]
      simp [crm_foldl_details]
  · unfold crm_run crmDetailsSpec crmQualified
    by_cases hc : companies.isEmpty
    · rw [if_pos hc]
      simp [List.isEmpty_iff.mp hc]
    · rw [if_neg hc]
      simp [crm_foldl_errors]
  · unfold crm_run crmDetailsSpec crmQualified
    by_cases hc : companies.isEmpty
    · rw [if_pos hc]
      simp [List.isEmpty_iff.mp hc]
    · rw [if_neg hc]
      simp [crm_foldl_success]
  · unfold crm_run crmQualified
    by_cases hc : companies.isEmpty
    · rw [if_pos hc]
      simp [List.isEmpty_iff.mp hc]
    · rw [if_neg hc]
      simp [crm_foldl_remote]

/-- C9 witness: the blank contact has an empty email, and on a batch holding
one grade-A company with that single contact, the run records one error, no
success, no remote call, and the export-required failure detail. -/
theorem C9_empty_email_witness :
    stripChars (Contact.email {}).data = []
    ∧ create_hubspot_contact wPost {} { lead_grade := "A" } =
        ({ success := false, error := some "Contact email is required",
           contact := "Unknown" }, false)
    ∧ (crm_run wPost wExportCos "B" true).details = crmDetailsSpec wPost wExportCos
    ∧ (crm_run wPost wExportCos "B" true).errors =
        (crmDetailsSpec wPost wExportCos).countP (fun d => !d.success)
    ∧ (crm_run wPost wExportCos "B" true).success =
        (crmDetailsSpec wPost wExportCos).countP (fun d => d.success)
    ∧ (crm_run wPost wExportCos "B" true).remote_calls =
        ((crmQualified wExportCos).flatMap (fun comp => comp.contacts)).countP
          (fun ct => !(stripChars ct.email.data).isEmpty) := by
  have h := C9_empty_email_rejected wPost {} { lead_grade := "A" } wExportCos "B"
    (by decide)
  exact ⟨by decide, h.1, h.2.1, h.2.2.1, h.2.2.2.1, h.2.2.2.2⟩

/-- C5 counterexample: `enterprise` is outside the bounds table, yet the check
is not unrestricted there — 1000000 employees fail the default `(0, 999999)`
bounds. -/
theorem C5_enterprise_not_unrestricted :
    ("enterprise" ≠ "startup" ∧ "enterprise" ≠ "small" ∧ "enterprise" ≠ "medium")
    ∧ check_size_range 1000000 "enterprise" = false := by
  refine ⟨by decide, by decide⟩

/-- C5 (amended).  The size check is the inclusive-bounds table
startup `[1,50]`, small `[51,200]`, medium `[201,1000]`; any other label gets
the default bounds `[0, 999999]` — unrestricted only within them. -/
theorem C5_size_range_table (count : Int) (sr : String) :
    check_size_range count sr = true ↔
      ((sr = "startup" ∧ 1 ≤ count ∧ count ≤ 50)
       ∨ (sr = "small" ∧ 51 ≤ count ∧ count ≤ 200)
       ∨ (sr = "medium" ∧ 201 ≤ count ∧ count ≤ 1000)
       ∨ (sr ≠ "startup" ∧ sr ≠ "small" ∧ sr ≠ "medium"
          ∧ 0 ≤ count ∧ count ≤ 999999)) := by
  unfold check_size_range
  by_cases h1 : sr = "startup"
  · simp [h1]
  · by_cases h2 : sr = "small"
    · simp [h1, h2]
    · by_cases h3 : sr = "medium"
      · simp [h1, h2, h3]
      · simp [h1, h2, h3]

/-- C5 witness: the amended table at two concrete inputs — 30 employees pass
the `startup` bucket, and 500000 employees pass an unknown label's default
bounds. -/
theorem C5_size_range_witness :
    (check_size_range 30 "startup" = true ↔
      (("startup" = "startup" ∧ 1 ≤ (30 : Int) ∧ (30 : Int) ≤ 50)
       ∨ ("startup" = "small" ∧ 51 ≤ (30 : Int) ∧ (30 : Int) ≤ 200)
       ∨ ("startup" = "medium" ∧ 201 ≤ (30 : Int) ∧ (30 : Int) ≤ 1000)
       ∨ ("startup" ≠ "startup" ∧ "startup" ≠ "small" ∧ "startup" ≠ "medium"
          ∧ 0 ≤ (30 : Int) ∧ (30 : Int) ≤ 999999)))
    ∧ check_size_range 30 "startup" = true
    ∧ check_size_range 500000 "enterprise" = true := by
  exact ⟨C5_size_range_table 30 "startup", by decide, by decide⟩

/-- C3.  Contact confidence is the sum of the four advertised signals
(30 linkedin, 25 valid email, 20 multiple data sources, 25 complete identity),
lies in `[0, 100]`, and a contact is accepted iff confidence is at least 50
and all three identity fields are nonempty. -/
theorem C3_contact_confidence (c : Contact) :
    calculate_confidence c =
      (if c.linkedin_url ≠ "" then (30 : ℚ) else 0)
      + (if c.email_valid then 25 else 0)
      + (if 1 < c.data_sources then 20 else 0)
      + (if c.first_name ≠ "" ∧ c.last_name ≠ "" ∧ c.title ≠ "" then 25 else 0)
    ∧ 0 ≤ calculate_confidence c ∧ calculate_confidence c ≤ 100
    ∧ (validate_contact (enrich_confidence c) = true ↔
        50 ≤ calculate_confidence c
        ∧ c.first_name ≠ "" ∧ c.last_name ≠ "" ∧ c.title ≠ "") := by
  refine ⟨?_, ?_, ?_, ?_⟩
  · simp only [calculate_confidence, Bool.and_eq_true, truthyS_iff, and_assoc]
  · unfold calculate_confidence
    split_ifs <;> norm_num
  · unfold calculate_confidence
    split_ifs <;> norm_num
  · simp only [validate_contact, enrich_confidence, Bool.and_eq_true, truthyS_iff,
      decide_eq_true_eq]
    constructor
    · rintro ⟨⟨⟨hf, hl⟩, ht⟩, hc⟩
      exact ⟨hc, hf, hl, ht⟩
    · rintro ⟨hc, hf, hl, ht⟩
      exact ⟨⟨⟨hf, hl⟩, ht⟩, hc⟩

/-- C3 witness: a fully-populated contact scores 100 and is accepted. -/
theorem C3_contact_confidence_witness :
    calculate_confidence wConf =
      (if wConf.linkedin_url ≠ "" then (30 : ℚ) else 0)
      + (if wConf.email_valid then 25 else 0)
      + (if 1 < wConf.data_sources then 20 else 0)
      + (if wConf.first_name ≠ "" ∧ wConf.last_name ≠ "" ∧ wConf.title ≠ "" then 25 else 0)
    ∧ 0 ≤ calculate_confidence wConf ∧ calculate_confidence wConf ≤ 100
    ∧ (validate_contact (enrich_confidence wConf) = true ↔
        50 ≤ calculate_confidence wConf
        ∧ wConf.first_name ≠ "" ∧ wConf.last_name ≠ "" ∧ wConf.title ≠ "") :=
  C3_contact_confidence wConf

/-- C4.  ICP scoring: 30 for a case-insensitive industry substring match, 25
for the size bucket, 20 for name and domain both present; the company matches
iff the total is at least 20; and in the concrete SaaS/startup/30-employee
configuration the score is 75 and the company matches. -/
theorem C4_icp_scoring (c : Company) (industry size_range : String) :
    (matches_icp c industry size_range).1.icp_score =
      (if containsSeq (lowerChars c.industry.data) (lowerChars industry.data)
        then (30 : ℚ) else 0)
      + (if check_size_range c.employee_count size_range then 25 else 0)
      + (if c.name ≠ "" ∧ c.domain ≠ "" then 20 else 0)
    ∧ ((matches_icp c industry size_range).2 = true ↔
        20 ≤ icpScoreOf c industry size_range)
    ∧ (containsSeq (lowerChars c.industry.data) "saas".data = true →
        industry = "SaaS" → size_range = "startup" → c.employee_count = 30 →
        c.name ≠ "" → c.domain ≠ "" →
        icpScoreOf c industry size_range = 75
        ∧ (matches_icp c industry size_range).2 = true) := by
  refine ⟨?_, ?_, ?_⟩
  · have h : (matches_icp c industry size_range).1.icp_score =
        icpScoreOf c industry size_range := rfl
    rw [h]
    simp only [icpScoreOf, Bool.and_eq_true, truthyS_iff]
  · simp only [matches_icp, decide_eq_true_eq]
  · rintro hsub rfl rfl hec hn hd
    have hlow : lowerChars "SaaS".data = "saas".data := by decide
    have hc1 : containsSeq (lowerChars c.industry.data) (lowerChars "SaaS".data) = true := by
      rw [hlow]
      exact hsub
    have hc2 : check_size_range c.employee_count "startup" = true := by
      rw [hec]
      decide
    have hc3 : (truthyS c.name && truthyS c.domain) = true := by
      rw [Bool.and_eq_true, truthyS_iff, truthyS_iff]
      exact ⟨hn, hd⟩
    have hscore : icpScoreOf c "SaaS" "startup" = 75 := by
      unfold icpScoreOf
      rw [if_pos hc1, if_pos hc2, if_pos hc3]
      norm_num
    refine ⟨hscore, ?_⟩
    simp only [matches_icp, decide_eq_true_eq]
    rw [hscore]
    norm_num

/-- C4 witness: the spec §8 example company (industry SaaS, 30 employees,
name and domain present) scores 75 and matches the ICP. -/
theorem C4_icp_witness :
    containsSeq (lowerChars saasCo.industry.data) "saas".data = true
    ∧ saasCo.employee_count = 30 ∧ saasCo.name ≠ "" ∧ saasCo.domain ≠ ""
    ∧ (icpScoreOf saasCo "SaaS" "startup" = 75
       ∧ (matches_icp saasCo "SaaS" "startup").2 = true) := by
  refine ⟨by decide, by decide, by decide, by decide, ?_⟩
  exact (C4_icp_scoring saasCo "SaaS" "startup").2.2 (by decide) rfl rfl
    (by decide) (by decide) (by decide)

/-- C2.  For nonnegative score inputs and enum severities, the lead score is
the sum of the five advertised components (capped ICP, trigger and contact
components, timing from high-severity triggers, health from trigger presence
and company size), lies in `[0, 100]`, and the lead grade is the four-step
function of the lead score. -/
theorem C2_lead_scoring (c : Company) (h1 : 0 ≤ c.icp_score)
    (h2 : 0 ≤ c.trigger_score) (h3 : 0 ≤ c.contact_score)
    (h4 : 0 ≤ c.employee_count)
    (h5 : ∀ t ∈ c.trigger_events,
      t.severity = "high" ∨ t.severity = "medium" ∨ t.severity = "low") :
    (score_company c).lead_score =
      min (c.icp_score * (3 / 10)) 25 + min (c.trigger_score * 2) 30
      + min (c.contact_score * (1 / 5)) 20
      + min (8 * ((c.trigger_events.countP
          (fun t => decide (t.severity = "high"))) : ℚ)) 15
      + ((if c.trigger_events.isEmpty then (0 : ℚ) else 5)
         + (if 50 < c.employee_count then (5 : ℚ) else 0))
    ∧ 0 ≤ (score_company c).lead_score ∧ (score_company c).lead_score ≤ 100
    ∧ ((score_company c).lead_grade = "A" ↔ 80 ≤ (score_company c).lead_score)
    ∧ ((score_company c).lead_grade = "B" ↔
        65 ≤ (score_company c).lead_score ∧ (score_company c).lead_score < 80)
    ∧ ((score_company c).lead_grade = "C" ↔
        50 ≤ (score_company c).lead_score ∧ (score_company c).lead_score < 65)
    ∧ ((score_company c).lead_grade = "D" ↔ (score_company c).lead_score < 50) := by
  have hts : (score_company c).lead_score = (calculate_lead_score c).total_score := rfl
  have hgr : (score_company c).lead_grade =
      assign_grade (calculate_lead_score c).total_score := rfl
  have htiming : assess_timing c =
      min (8 * ((c.trigger_events.countP
        (fun t => decide (t.severity = "high"))) : ℚ)) 15 := by
    unfold assess_timing
    by_cases he : c.trigger_events = []
    · rw [if_pos he, he]
      norm_num
    · rw [if_neg he]
      have hcnt : c.trigger_events.countP
            (fun t => containsSeq t.severity.data "high".data)
          = c.trigger_events.countP (fun t => decide (t.severity = "high")) := by
        refine List.countP_congr ?_
        intro t ht
        rcases h5 t ht with h | h | h <;> rw [h] <;> decide
      rw [hcnt, mul_comm]
  have htotal : (calculate_lead_score c).total_score =
      min (c.icp_score * (3 / 10)) 25 + min (c.trigger_score * 2) 30
      + min (c.contact_score * (1 / 5)) 20 + assess_timing c + assess_health c := rfl
  have b1a : 0 ≤ min (c.icp_score * (3 / 10)) 25 :=
    le_min (mul_nonneg h1 (by norm_num)) (by norm_num)
  have b1b : min (c.icp_score * (3 / 10)) 25 ≤ 25 := min_le_right _ _
  have b2a : 0 ≤ min (c.trigger_score * 2) 30 :=
    le_min (mul_nonneg h2 (by norm_num)) (by norm_num)
  have b2b : min (c.trigger_score * 2) 30 ≤ 30 := min_le_right _ _
  have b3a : 0 ≤ min (c.contact_score * (1 / 5)) 20 :=
    le_min (mul_nonneg h3 (by norm_num)) (by norm_num)
  have b3b : min (c.contact_score * (1 / 5)) 20 ≤ 20 := min_le_right _ _
  have b4a : 0 ≤ assess_timing c := by
    rw [htiming]
    exact le_min (by positivity) (by norm_num)
  have b4b : assess_timing c ≤ 15 := by
    rw [htiming]
    exact min_le_right _ _
  have b5a : 0 ≤ assess_health c := by
    unfold assess_health
    split_ifs <;> norm_num
  have b5b : assess_health c ≤ 10 := by
    unfold assess_health
    split_ifs <;> norm_num
  refine ⟨?_, ?_, ?_, ?_, ?_, ?_, ?_⟩
  · rw [hts, htotal, htiming]
    rfl
  · rw [hts, htotal]
    linarith
  · rw [hts, htotal]
    linarith
  · rw [hgr, hts]
    exact assign_grade_A_iff _
  · rw [hgr, hts]
    exact assign_grade_B_iff _
  · rw [hgr, hts]
    exact assign_grade_C_iff _
  · rw [hgr, hts]
    exact assign_grade_D_iff _

/-- C2 witness: the concrete company (ICP 50, trigger 10, contact 50, 100
employees, one high-severity trigger) satisfies every hypothesis and the full
conclusion; its lead score is 63 and its grade is C. -/
theorem C2_lead_scoring_witness :
    0 ≤ wScoredCo.icp_score ∧ 0 ≤ wScoredCo.trigger_score
    ∧ 0 ≤ wScoredCo.contact_score ∧ 0 ≤ wScoredCo.employee_count
    ∧ (∀ t ∈ wScoredCo.trigger_events,
        t.severity = "high" ∨ t.severity = "medium" ∨ t.severity = "low")
    ∧ ((score_company wScoredCo).lead_score =
        min (wScoredCo.icp_score * (3 / 10)) 25 + min (wScoredCo.trigger_score * 2) 30
        + min (wScoredCo.contact_score * (1 / 5)) 20
        + min (8 * ((wScoredCo.trigger_events.countP
            (fun t => decide (t.severity = "high"))) : ℚ)) 15
        + ((if wScoredCo.trigger_events.isEmpty then (0 : ℚ) else 5)
           + (if 50 < wScoredCo.employee_count then (5 : ℚ) else 0))
      ∧ 0 ≤ (score_company wScoredCo).lead_score
      ∧ (score_company wScoredCo).lead_score ≤ 100
      ∧ ((score_company wScoredCo).lead_grade = "A" ↔
          80 ≤ (score_company wScoredCo).lead_score)
      ∧ ((score_company wScoredCo).lead_grade = "B" ↔
          65 ≤ (score_company wScoredCo).lead_score
          ∧ (score_company wScoredCo).lead_score < 80)
      ∧ ((score_company wScoredCo).lead_grade = "C" ↔
          50 ≤ (score_company wScoredCo).lead_score
          ∧ (score_company wScoredCo).lead_score < 65)
      ∧ ((score_company wScoredCo).lead_grade = "D" ↔
          (score_company wScoredCo).lead_score < 50)) := by
  refine ⟨by norm_num [wScoredCo], by norm_num [wScoredCo], by norm_num [wScoredCo],
    by decide, by decide, ?_⟩
  exact C2_lead_scoring wScoredCo (by norm_num [wScoredCo]) (by norm_num [wScoredCo])
    (by norm_num [wScoredCo]) (by decide) (by decide)

end AiBdr
